import Mathlib

/-!
Verification of the trivia-genius-ai front end.

The TypeScript sources are shallowly embedded:
JavaScript strings handled by string algorithms are modelled as `List Char`,
real-valued audio-clock times as rationals, promise resolution/rejection as
`Except`, and the browser/SDK externals (JSON.parse, the generative-AI calls,
the Web Audio API) as explicit parameters or outcome data fed to the embedded
control flow, which is translated line by line from the sources.
-/

namespace TriviaGenius

/-- `TriviaQuestion` from src types: `{question, answer, context?}`. -/
structure TriviaQuestion where
  question : String
  answer : String
  context : Option String
deriving DecidableEq, Repr

/-! ## Live playback scheduling (`LiveGame.tsx`, `onMessage`)

State of the output scheduler: `nextStartTimeRef` holds the cursor.
Audio-clock times (`ctx.currentTime`, buffer durations) are rationals. -/

/-- `Math.max` on two audio-clock times. -/
def qmax (a b : ℚ) : ℚ := if a ≤ b then b else a

/-- The scheduler cursor `nextStartTimeRef.current`. -/
structure SchedState where
  nextStartTime : ℚ
deriving DecidableEq, Repr

/-- One decoded audio segment handled by `onMessage`
(`LiveGame.tsx` lines 87–101):
`nextStartTimeRef.current = Math.max(nextStartTimeRef.current, ctx.currentTime)`,
then `source.start(nextStartTimeRef.current)` and
`nextStartTimeRef.current += audioBuffer.duration`.
Returns the new cursor state and the scheduled start time. -/
def scheduleSegment (s : SchedState) (now dur : ℚ) : SchedState × ℚ :=
  let start := qmax s.nextStartTime now
  (⟨start + dur⟩, start)

/-- Processing a sequence of decoded segments in arrival order with no
interruption in between: each element of the input is the pair
`(ctx.currentTime at processing, audioBuffer.duration)`; the result is the
list of scheduled start times. -/
def scheduleAll (s : SchedState) : List (ℚ × ℚ) → List ℚ
  | [] => []
  | (now, dur) :: rest =>
    let p := scheduleSegment s now dur
    p.2 :: scheduleAll p.1 rest

/-! ## Interruption handling (`LiveGame.tsx`, `onMessage` lines 110–115) -/

/-- An `AudioBufferSourceNode` tracked in `audioSourcesRef`;
`stopped` records whether `stop()` has been invoked on it. -/
structure AudioSource where
  id : Nat
  stopped : Bool
deriving DecidableEq, Repr

/-- Playback-side state of the live game: the tracked source set
(`audioSourcesRef`, modelled as a list), the cursor, and the
`isBotSpeaking` indicator. -/
structure LivePlayback where
  audioSources : List AudioSource
  nextStartTime : ℚ
  isBotSpeaking : Bool
deriving DecidableEq, Repr

/-- `msg.serverContent?.interrupted` handling:
`audioSourcesRef.current.forEach(s => s.stop()); audioSourcesRef.current.clear();
nextStartTimeRef.current = 0; setIsBotSpeaking(false);`.
Returns the new state and the sources as they are after `stop()` was
invoked on each of them. -/
def handleInterrupted (s : LivePlayback) : LivePlayback × List AudioSource :=
  (⟨[], 0, false⟩, s.audioSources.map (fun a => { a with stopped := true }))

/-! ## Question generation (`geminiService`, `generateTriviaQuestions`)

JavaScript strings processed here are modelled as `List Char`. -/

/-- The backquote character that opens and closes a markdown code fence. -/
def bq : Char := Char.ofNat 96

/-- The pattern of the first regex, the characters of three backquotes
followed by the letters j, s, o, n. -/
def fenceJson : List Char := [bq, bq, bq, 'j', 's', 'o', 'n']

/-- The pattern of the second regex, three backquotes. -/
def fence : List Char := [bq, bq, bq]

/-- Global regex replacement `s.replace(pat, repl)` for a literal pattern:
scans left to right, replacing non-overlapping occurrences of `pat`. -/
def replaceAll (pat repl : List Char) : List Char → List Char
  | [] => []
  | c :: rest =>
    if _hpat : pat ≠ [] ∧ pat.isPrefixOf (c :: rest) then
      repl ++ replaceAll pat repl ((c :: rest).drop pat.length)
    else
      c :: replaceAll pat repl rest
termination_by s => s.length
decreasing_by
  · simp only [List.length_drop, List.length_cons]
    have hp : 0 < pat.length := List.length_pos.mpr _hpat.1
    omega
  · simp only [List.length_cons]
    omega

/-- `String.prototype.trim`: drops whitespace from both ends. -/
def trimChars (s : List Char) : List Char :=
  ((s.dropWhile Char.isWhitespace).reverse.dropWhile Char.isWhitespace).reverse

/-- The fence cleanup in `generateTriviaQuestions`:
`jsonText.replace(/```json/g, '').replace(/```/g, '').trim()`. -/
def cleanupJsonText (s : List Char) : List Char :=
  trimChars (replaceAll fence [] (replaceAll fenceJson [] s))

/-- The object shape expected from `JSON.parse`: an object with a
`questions` array of question/answer/context records. -/
structure ParsedDoc where
  questions : List TriviaQuestion
deriving DecidableEq, Repr

/-- One entry of `response.candidates[0].groundingMetadata.groundingChunks`;
`webUri` is `chunk.web?.uri`. -/
structure GroundingChunk where
  webUri : Option String
deriving DecidableEq, Repr

/-- The fields of the generate-content response that the function reads:
`response.text` (possibly absent or empty) and the grounding chunks
(possibly absent). -/
structure GenResponse where
  text : Option (List Char)
  groundingChunks : Option (List GroundingChunk)
deriving DecidableEq, Repr

/-- Outcome of the awaited `ai.models.generateContent` call: either the
awaited promise rejects (network error and the like) or a response value. -/
inductive GenCall
  | networkError
  | response (r : GenResponse)
deriving DecidableEq, Repr

/-- Result type of `generateTriviaQuestions`. -/
structure GenResult where
  questions : List TriviaQuestion
  sources : List String
deriving DecidableEq, Repr

/-- The hardcoded fallback returned from the `catch` block. -/
def fallbackResult : GenResult :=
  { questions := [{ question := "What is the capital of France?",
                    answer := "Paris",
                    context := some "It is known as the City of Lights." }],
    sources := [] }

/-- `Array.from(new Set(sources))`: deduplication keeping the first
occurrence of each element, in insertion order. -/
def dedupSources (l : List String) : List String :=
  l.foldl (fun acc s => if s ∈ acc then acc else acc ++ [s]) []

/-- `generateTriviaQuestions` (geminiService): the external
`JSON.parse` is the parameter `parse` (`none` models a parse exception) and
the external generate-content call is the `call` outcome. Mirrors the
source: a rejected call is caught and yields the fallback; a missing or
empty (`!jsonText`) response text throws, is caught, and yields the
fallback; otherwise the text is fence-cleaned and parsed — a parse
exception is caught and yields the fallback — and on success the parsed
`questions` are returned together with the deduplicated grounding URIs. -/
def generateTriviaQuestions (parse : List Char → Option ParsedDoc)
    (call : GenCall) : GenResult :=
  match call with
  | .networkError => fallbackResult
  | .response r =>
    match r.text with
    | none => fallbackResult
    | some t =>
      if t = [] then fallbackResult
      else
        match parse (cleanupJsonText t) with
        | none => fallbackResult
        | some doc =>
          let sources := match r.groundingChunks with
            | none => []
            | some chunks => chunks.filterMap (fun c => c.webUri)
          { questions := doc.questions, sources := dedupSources sources }

/-- A concrete stand-in for the external `JSON.parse` used when the
theorems below are instantiated at concrete inputs: accepts exactly the
one-character text `x` as an (empty) questions document. -/
def parseX : List Char → Option ParsedDoc :=
  fun s => if s = ['x'] then some ⟨[]⟩ else none

/-! ## Text-to-speech playback (`geminiService`, `playTextToSpeech`) -/

/-- Outcome of the awaited TTS generate-content call: the promise rejects,
or it yields a response whose `inlineData.data` chain is absent or holds
base64 audio. -/
inductive TtsRequestResult
  | err
  | ok (base64Audio : Option (List Char))
deriving DecidableEq, Repr

/-- Outcome of the awaited `decodeAudioData` call. -/
inductive DecodeResult
  | err
  | ok
deriving DecidableEq, Repr

/-- The external events one `playTextToSpeech` call can encounter: the TTS
request outcome, whether `audioContext.state === 'closed'` at the check,
and the decode outcome. -/
structure TtsEnv where
  request : TtsRequestResult
  ctxClosed : Bool
  decode : DecodeResult
deriving DecidableEq, Repr

/-- `playTextToSpeech` (geminiService): the returned promise modelled as an
`Except`, `.ok ()` for resolution and `.error` for rejection. Mirrors the
executor branch by branch: a rejected request is caught and resolves; a
response without audio resolves; a closed context resolves before
decoding; a decode failure is caught and resolves; on success the
`onended` handler resolves after playback. -/
def playTextToSpeech (env : TtsEnv) : Except String Unit :=
  match env.request with
  | .err => .ok ()
  | .ok none => .ok ()
  | .ok (some _) =>
    if env.ctxClosed then .ok ()
    else
      match env.decode with
      | .err => .ok ()
      | .ok => .ok ()

/-! ## Sequential speech queue (StandardGame, `speak`)

`speak` chains each utterance onto `audioQueueRef.current` with `.then`,
so utterance k+1's request/decode/playback cycle runs only after the
promise of utterance k's cycle resolves; `playTextToSpeech` resolves its
promise at the cycle's last event. The queue semantics is therefore the
event trace obtained by concatenating the per-utterance cycles in order. -/

/-- Summary of one utterance's cycle, matching the branches of
`playTextToSpeech`: the request failed, the response had no audio, the
context was closed (or decoding failed), or the audio played to its end. -/
inductive TtsOutcome
  | requestError
  | noAudio
  | ctxClosed
  | success
deriving DecidableEq, Repr

/-- Observable events of the speech pipeline, tagged with the utterance's
position in the queue. -/
inductive SpeechEvent
  | ttsRequest (k : Nat)
  | decode (k : Nat)
  | playStart (k : Nat)
  | playEnd (k : Nat)
deriving DecidableEq, Repr

/-- The events of utterance `k`'s request/decode/playback cycle: the TTS
request is always issued; decoding, playback start and the playback-end
event occur only when the cycle succeeds (on every other branch the
promise resolves early with no further events). -/
def utteranceTrace (k : Nat) : TtsOutcome → List SpeechEvent
  | .requestError => [.ttsRequest k]
  | .noAudio => [.ttsRequest k]
  | .ctxClosed => [.ttsRequest k]
  | .success => [.ttsRequest k, .decode k, .playStart k, .playEnd k]

/-- The event trace of the promise-chain queue starting at utterance
number `b`: cycle after cycle, each starting only once the previous
promise has resolved. -/
def queueTrace (b : Nat) : List TtsOutcome → List SpeechEvent
  | [] => []
  | o :: os => utteranceTrace b o ++ queueTrace (b + 1) os

/-- The utterance an event belongs to. -/
def uttOf : SpeechEvent → Nat
  | .ttsRequest k => k
  | .decode k => k
  | .playStart k => k
  | .playEnd k => k

/-! ## Microphone capture and mute toggle (`LiveGame.tsx`) -/

/-- Modelled from the spec: `createPcmBlob` lives in `utils/audioUtils`,
whose file is not among the sources; spec §4.1 describes it as converting
32-bit float samples in [-1,1] to 16-bit signed integers. Samples are
modelled as rationals, scaled by 2^15 and clamped to the int16 range. -/
def createPcmBlob (samples : List ℚ) : List ℤ :=
  samples.map (fun x => max (-32768) (min 32767 (Rat.floor (x * 32768))))

/-- React state of the mic toggle in `LiveGame`: `isMicOn` is the current
`useState` value; `capturedIsMicOn` is the value of the `isMicOn` binding
that the `onaudioprocess` closure closed over when it was created. The
effect creating the closure has an empty dependency list and runs once,
on mount, so the closure holds the first render's binding and no later
code re-creates the handler. -/
structure MicState where
  isMicOn : Bool
  capturedIsMicOn : Bool
deriving DecidableEq, Repr

/-- Mount-time state: `useState(true)`, and the handler created inside
`onOpen` captures that first-render value `true`. -/
def initialMicState : MicState := { isMicOn := true, capturedIsMicOn := true }

/-- `toggleMic`: `setIsMicOn(!isMicOn)` replaces the React state for the
next render; the already-created closure's captured binding is a `const`
of the old render and is untouched. -/
def toggleMic (s : MicState) : MicState := { s with isMicOn := !s.isMicOn }

/-- `onaudioprocess` (`LiveGame.tsx` lines 62–71): `if (!isMicOn) return;`
reads the captured binding, then encodes the frame with `createPcmBlob`
and sends it via `session.sendRealtimeInput`. `some payload` is a sent
frame, `none` a dropped one. -/
def onaudioprocess (s : MicState) (frame : List ℚ) : Option (List ℤ) :=
  if !s.capturedIsMicOn then none
  else some (createPcmBlob frame)

/-! ## LiveGame teardown cleanup (`LiveGame.tsx` lines 137–149) -/

/-- A `MediaStream` track; `stopped` records whether `stop()` ran. -/
structure MediaTrack where
  stopped : Bool
deriving DecidableEq, Repr

/-- `t.stop()` on a media track. -/
def stopTrack (t : MediaTrack) : MediaTrack := { t with stopped := true }

/-- State of the retained `connectToLiveSession` promise
(`sessionRef.current`) at cleanup time: resolved — with or without a
`close` method on the session object (`s.close && s.close()`) — or still
pending/rejected, in which case the `.then` continuation never runs. -/
inductive SessionPromise
  | resolved (hasClose : Bool)
  | pending
deriving DecidableEq, Repr

/-- The refs the `useEffect` cleanup touches. `none` models a ref that is
still `null` (optional chaining skips it). For the audio nodes the tracked
fact is connectedness; for the contexts, closedness. -/
structure LiveRefs where
  streamTracks : Option (List MediaTrack)
  processorConnected : Option Bool
  sourceConnected : Option Bool
  inputCtxClosed : Option Bool
  outputCtxClosed : Option Bool
  sessionPromise : Option SessionPromise
  sessionClosed : Bool
deriving DecidableEq, Repr

/-- The cleanup function returned by the `useEffect`:
`streamRef.current?.getTracks().forEach(t => t.stop());
processorRef.current?.disconnect(); sourceRef.current?.disconnect();
inputCtxRef.current?.close(); outputCtxRef.current?.close();
sessionRef.current?.then(s => s.close && s.close());`. -/
def cleanup (s : LiveRefs) : LiveRefs :=
  { streamTracks := s.streamTracks.map (fun ts => ts.map stopTrack),
    processorConnected := s.processorConnected.map (fun _ => false),
    sourceConnected := s.sourceConnected.map (fun _ => false),
    inputCtxClosed := s.inputCtxClosed.map (fun _ => true),
    outputCtxClosed := s.outputCtxClosed.map (fun _ => true),
    sessionPromise := s.sessionPromise,
    sessionClosed :=
      match s.sessionPromise with
      | some (.resolved true) => true
      | _ => s.sessionClosed }

/-! ## Standard game (StandardGame component) -/

/-- The component-local `useState` values of `StandardGame`. -/
structure StdState where
  currentQIdx : Nat
  score : Nat
  showAnswer : Bool
deriving DecidableEq, Repr

/-- Mount-time state: `useState(0)`, `useState(0)`, `useState(false)`. -/
def initialStdState : StdState := { currentQIdx := 0, score := 0, showAnswer := false }

/-- `handleNext`: below the last question it advances and hides the
answer; otherwise it speaks the game-over line with the render-time
`score` binding and restarts. The second component is `some spokenScore`
exactly when the game-over branch runs. -/
def handleNext (numQuestions : Nat) (s : StdState) : StdState × Option Nat :=
  if s.currentQIdx < numQuestions - 1 then
    ({ s with currentQIdx := s.currentQIdx + 1, showAnswer := false }, none)
  else
    (s, some s.score)

/-- `handleReveal`: shows the answer (and enqueues the answer TTS). -/
def handleReveal (s : StdState) : StdState := { s with showAnswer := true }

/-- The `I Got It Right` button: `setScore(s => s + 1); handleNext();`.
`setScore` queues a functional update for the next render, while
`handleNext` reads the unchanged `score` binding of the current render,
so the score it may speak does not include this click's increment. -/
def clickGotItRight (numQuestions : Nat) (s : StdState) : StdState × Option Nat :=
  let p := handleNext numQuestions s
  ({ p.1 with score := s.score + 1 }, p.2)

/-- The `Missed It` button: `handleNext()` alone. -/
def clickMissedIt (numQuestions : Nat) (s : StdState) : StdState × Option Nat :=
  handleNext numQuestions s

/-- The user interactions that change `StandardGame` state. -/
inductive StdOp
  | reveal
  | gotItRight
  | missedIt
deriving DecidableEq, Repr

/-- State transition of one interaction. -/
def applyStdOp (numQuestions : Nat) (s : StdState) : StdOp → StdState
  | .reveal => handleReveal s
  | .gotItRight => (clickGotItRight numQuestions s).1
  | .missedIt => (clickMissedIt numQuestions s).1

/-- A sequence of interactions applied from a starting state. -/
def runStdOps (numQuestions : Nat) (s : StdState) (ops : List StdOp) : StdState :=
  ops.foldl (applyStdOp numQuestions) s

/-- One full question round: reveal the answer, then click
`I Got It Right` (`correct = true`) or `Missed It`. -/
def playRound (numQuestions : Nat) (correct : Bool) (s : StdState) :
    StdState × Option Nat :=
  if correct then clickGotItRight numQuestions (handleReveal s)
  else clickMissedIt numQuestions (handleReveal s)

/-- A complete game: one round per entry of `decisions` (whether the
player marked that question correct), returning the final state and the
spoken game-over score, if any round spoke it. -/
def runGame (numQuestions : Nat) : List Bool → StdState → StdState × Option Nat
  | [], s => (s, none)
  | d :: ds, s =>
    let p := playRound numQuestions d s
    let r := runGame numQuestions ds p.1
    (r.1, r.2.orElse (fun _ => p.2))

end TriviaGenius

namespace TriviaGenius

/-- The first argument is below `qmax` of itself and anything else. -/
theorem le_qmax_left (a b : ℚ) : a ≤ qmax a b := by
  unfold qmax
  split
  · assumption
  · exact le_refl a

/-- C1: In the live-game playback scheduler, for any sequence of decoded audio
segments with durations d1..dn processed in arrival order (no interruption in
between), each segment starts at max(cursor, current time) and the cursor then
advances by the segment's duration, so scheduled start times are monotonically
non-decreasing and segment i's start time is at least segment i-1's start time
plus d(i-1). -/
theorem live_schedule_starts_monotone (segs : List (ℚ × ℚ))
    (hd : ∀ p ∈ segs, 0 ≤ p.2) (s : SchedState) (i : ℕ) (st1 st2 dur : ℚ)
    (h1 : (scheduleAll s segs)[i]? = some st1)
    (h2 : (scheduleAll s segs)[i + 1]? = some st2)
    (hdur : (segs[i]?).map Prod.snd = some dur) :
    st1 + dur ≤ st2 ∧ st1 ≤ st2 := by
  induction segs generalizing s i with
  | nil => simp [scheduleAll] at h1
  | cons p rest ih =>
    obtain ⟨now, d⟩ := p
    simp only [scheduleAll, scheduleSegment] at h1 h2
    cases i with
    | zero =>
      simp only [List.getElem?_cons_zero, Option.some_inj] at h1 hdur
      simp only [List.getElem?_cons_succ] at h2
      cases rest with
      | nil => simp [scheduleAll] at h2
      | cons q rest' =>
        obtain ⟨now', d'⟩ := q
        simp only [scheduleAll, scheduleSegment, List.getElem?_cons_zero,
          Option.some_inj] at h2
        simp only [Option.map_eq_some'] at hdur
        obtain ⟨pr, hpr, hpd⟩ := hdur
        simp only [Option.some_inj] at hpr
        subst hpr
        simp only at hpd
        subst hpd
        subst h1
        subst h2
        have h0 : (0 : ℚ) ≤ d := by simpa using hd (now, d) (by simp)
        refine ⟨le_qmax_left _ _, ?_⟩
        have hle := le_qmax_left (qmax s.nextStartTime now + d) now'
        linarith
    | succ i' =>
      simp only [List.getElem?_cons_succ] at h1 h2 hdur
      exact ih (fun q hq => hd q (List.mem_cons_of_mem _ hq))
        ⟨qmax s.nextStartTime now + d⟩ i' h1 h2 hdur

/-- Witness for C1 at the concrete segment list [(0, 1), (5, 2)]. -/
theorem live_schedule_starts_monotone_witness :
    (scheduleAll ⟨0⟩ [((0 : ℚ), (1 : ℚ)), (5, 2)])[0]? = some 0 ∧
    (scheduleAll ⟨0⟩ [((0 : ℚ), (1 : ℚ)), (5, 2)])[1]? = some 5 ∧
    ((0 : ℚ) + 1 ≤ 5 ∧ (0 : ℚ) ≤ 5) := by
  refine ⟨by simp [scheduleAll, scheduleSegment, qmax],
    by simp [scheduleAll, scheduleSegment, qmax], ?_⟩
  exact live_schedule_starts_monotone [((0 : ℚ), (1 : ℚ)), (5, 2)]
    (by decide) ⟨0⟩ 0 0 5 1 (by simp [scheduleAll, scheduleSegment, qmax])
    (by simp [scheduleAll, scheduleSegment, qmax]) (by decide)

/-- C2: when a live-session message carrying an interruption signal is handled,
every tracked audio segment is stopped, the tracked set becomes empty, the
scheduling cursor is reset to zero, and the bot-speaking indicator is
cleared. -/
theorem interruption_clears_playback (s : LivePlayback) :
    (handleInterrupted s).1.audioSources = [] ∧
    (handleInterrupted s).1.nextStartTime = 0 ∧
    (handleInterrupted s).1.isBotSpeaking = false ∧
    (handleInterrupted s).2.length = s.audioSources.length ∧
    (∀ a ∈ (handleInterrupted s).2, a.stopped = true) ∧
    (∀ a ∈ s.audioSources, { a with stopped := true } ∈ (handleInterrupted s).2) := by
  refine ⟨rfl, rfl, rfl, by simp [handleInterrupted], ?_, ?_⟩
  · intro a ha
    simp only [handleInterrupted, List.mem_map] at ha
    obtain ⟨b, _, hb⟩ := ha
    simp [← hb]
  · intro a ha
    simp only [handleInterrupted, List.mem_map]
    exact ⟨a, ha, rfl⟩

/-- A list is a prefix of itself followed by anything. -/
theorem isPrefixOf_append_self (l s : List Char) : l.isPrefixOf (l ++ s) = true := by
  induction l with
  | nil => simp [List.isPrefixOf]
  | cons c t ih => simp [List.isPrefixOf, ih]

/-- Replacing a pattern in a string that begins with that pattern emits the
replacement and continues after the pattern. -/
theorem replaceAll_pat_prepend (pat repl s : List Char) (hp : pat ≠ []) :
    replaceAll pat repl (pat ++ s) = repl ++ replaceAll pat repl s := by
  cases pat with
  | nil => exact absurd rfl hp
  | cons c t =>
    rw [List.cons_append, replaceAll,
      dif_pos ⟨List.cons_ne_nil c t, by
        rw [← List.cons_append]; exact isPrefixOf_append_self (c :: t) s⟩]
    rw [← List.cons_append, List.drop_left]

/-- Replacing a pattern skips over a block that contains no occurrence of
the pattern's first character. -/
theorem replaceAll_skip (pat repl body t : List Char) (h0 : Char)
    (hh : pat.head? = some h0) (hb : h0 ∉ body) :
    replaceAll pat repl (body ++ t) = body ++ replaceAll pat repl t := by
  induction body with
  | nil => simp
  | cons c rest ih =>
    have hc : c ≠ h0 := fun he => hb (by simp [he])
    cases pat with
    | nil => simp at hh
    | cons p pt =>
      simp only [List.head?_cons, Option.some_inj] at hh
      rw [List.cons_append, replaceAll, dif_neg, ih (fun hm => hb (by simp [hm]))]
      · simp
      · rintro ⟨-, hpre⟩
        simp only [List.isPrefixOf, Bool.and_eq_true, beq_iff_eq] at hpre
        exact hc (hpre.1 ▸ hh)

/-- The seven-character fence pattern does not occur in the bare
three-character fence. -/
theorem replaceAll_fenceJson_fence : replaceAll fenceJson [] fence = fence := by
  rw [fence, replaceAll, dif_neg, replaceAll, dif_neg, replaceAll, dif_neg,
    replaceAll]
  all_goals rintro ⟨-, hpre⟩
  all_goals simp [fenceJson, List.isPrefixOf] at hpre

/-- Replacing the three-character fence pattern in the bare fence removes
it entirely. -/
theorem replaceAll_fence_fence : replaceAll fence [] fence = [] := by
  have h := replaceAll_pat_prepend fence [] [] (by simp [fence])
  simpa [replaceAll] using h

/-- Cleaning fenced text: for a body free of backquotes, wrapping it in
```json fences and cleaning recovers the trimmed body. -/
theorem cleanupJsonText_fenced (body : List Char) (hb : bq ∉ body) :
    cleanupJsonText (fenceJson ++ body ++ fence) = trimChars body := by
  have h1 : replaceAll fenceJson [] (fenceJson ++ body ++ fence)
      = body ++ fence := by
    rw [List.append_assoc, replaceAll_pat_prepend _ _ _ (by simp [fenceJson]),
      replaceAll_skip _ _ _ _ bq (by simp [fenceJson]) hb,
      replaceAll_fenceJson_fence, List.nil_append]
  have h2 : replaceAll fence [] (body ++ fence) = body := by
    rw [replaceAll_skip _ _ _ _ bq (by simp [fence]) hb,
      replaceAll_fence_fence, List.append_nil]
  rw [cleanupJsonText, h1, h2]

/-- C5: for every generation response whose text is a valid JSON object
with a `questions` array wrapped in ```json markdown code fences,
`generateTriviaQuestions` still parses it correctly after fence stripping
and returns the contained questions array. -/
theorem fenced_json_still_parsed (parse : List Char → Option ParsedDoc)
    (body : List Char) (doc : ParsedDoc)
    (chunks : Option (List GroundingChunk)) (hb : bq ∉ body)
    (hp : parse (trimChars body) = some doc) :
    (generateTriviaQuestions parse
      (.response ⟨some (fenceJson ++ body ++ fence), chunks⟩)).questions
      = doc.questions := by
  have hne : fenceJson ++ body ++ fence ≠ [] := by simp [fenceJson]
  have hclean := cleanupJsonText_fenced body hb
  simp only [generateTriviaQuestions, if_neg hne, hclean, hp]

/-- Witness for C5 at body `x`, the `parseX` parse function, and no
grounding chunks. -/
theorem fenced_json_still_parsed_witness :
    bq ∉ ['x'] ∧ parseX (trimChars ['x']) = some ⟨[]⟩ ∧
    (generateTriviaQuestions parseX
      (.response ⟨some (fenceJson ++ ['x'] ++ fence), none⟩)).questions
      = ([] : List TriviaQuestion) := by
  refine ⟨by decide, by decide, ?_⟩
  exact fenced_json_still_parsed parseX ['x'] ⟨[]⟩ none (by decide) (by decide)

/-- C3: for every topic, if the question-generation call fails (network
error, empty response text, or unparseable response),
`generateTriviaQuestions` does not raise but returns the fallback: exactly
one hardcoded question and an empty sources list. -/
theorem generation_failure_falls_back (parse : List Char → Option ParsedDoc)
    (call : GenCall)
    (hfail : call = .networkError ∨
      ∃ r, call = .response r ∧ (r.text = none ∨ r.text = some [] ∨
        ∃ t, r.text = some t ∧ parse (cleanupJsonText t) = none)) :
    generateTriviaQuestions parse call = fallbackResult ∧
    fallbackResult.questions.length = 1 ∧ fallbackResult.sources = [] := by
  refine ⟨?_, rfl, rfl⟩
  rcases hfail with h | ⟨r, hr, hcase⟩
  · subst h; rfl
  · subst hr
    rcases hcase with h | h | ⟨t, ht, hp⟩
    · simp [generateTriviaQuestions, h]
    · simp [generateTriviaQuestions, h]
    · by_cases hte : t = []
      · simp [generateTriviaQuestions, ht, hte]
      · simp [generateTriviaQuestions, ht, hte, hp]

/-- Witness for C3 at a rejected generate-content call. -/
theorem generation_failure_falls_back_witness :
    (GenCall.networkError = GenCall.networkError ∨
      ∃ r, GenCall.networkError = GenCall.response r ∧ (r.text = none ∨
        r.text = some [] ∨ ∃ t, r.text = some t ∧
          parseX (cleanupJsonText t) = none)) ∧
    (generateTriviaQuestions parseX .networkError = fallbackResult ∧
      fallbackResult.questions.length = 1 ∧ fallbackResult.sources = []) :=
  ⟨Or.inl rfl, generation_failure_falls_back parseX .networkError (Or.inl rfl)⟩

/-- Every event of utterance `k`'s cycle belongs to utterance `k`. -/
theorem uttOf_utteranceTrace (k : Nat) (o : TtsOutcome) :
    ∀ e ∈ utteranceTrace k o, uttOf e = k := by
  intro e he
  cases o <;> simp only [utteranceTrace, List.mem_cons, List.mem_singleton,
    List.not_mem_nil, or_false] at he
  case success =>
    rcases he with rfl | rfl | rfl | rfl <;> rfl
  all_goals subst he; rfl

/-- Events of the queue trace starting at `b` belong to utterance `b` or
later. -/
theorem le_uttOf_queueTrace (os : List TtsOutcome) (b : Nat) :
    ∀ e ∈ queueTrace b os, b ≤ uttOf e := by
  induction os generalizing b with
  | nil => intro e he; simp [queueTrace] at he
  | cons o os ih =>
    intro e he
    rcases List.mem_append.mp he with hblk | hrest
    · exact le_of_eq (uttOf_utteranceTrace b o e hblk).symm
    · exact le_trans (Nat.le_succ b) (ih (b + 1) e hrest)

/-- Utterance numbers never decrease along the queue trace. -/
theorem queueTrace_pairwise (os : List TtsOutcome) (b : Nat) :
    (queueTrace b os).Pairwise (fun e e' => uttOf e ≤ uttOf e') := by
  induction os generalizing b with
  | nil => exact List.Pairwise.nil
  | cons o os ih =>
    rw [queueTrace, List.pairwise_append]
    refine ⟨?_, ih (b + 1), ?_⟩
    · cases o <;> simp [utteranceTrace, uttOf, List.pairwise_cons]
    · intro e he e' he'
      rw [uttOf_utteranceTrace b o e he]
      exact le_trans (Nat.le_succ b) (le_uttOf_queueTrace os (b + 1) e' he')

/-- An event of a strictly earlier utterance sits at a strictly earlier
position of the queue trace. -/
theorem queueTrace_pos_lt (os : List TtsOutcome) (i j : Nat)
    (e e' : SpeechEvent) (hi : (queueTrace 0 os)[i]? = some e)
    (hj : (queueTrace 0 os)[j]? = some e') (hlt : uttOf e < uttOf e') :
    i < j := by
  rcases List.getElem?_eq_some.mp hi with ⟨hi', hie⟩
  rcases List.getElem?_eq_some.mp hj with ⟨hj', hje⟩
  by_contra hij
  push_neg at hij
  rcases Nat.lt_or_ge j i with hji | hji
  · have := (List.pairwise_iff_getElem.mp (queueTrace_pairwise os 0))
      j i hj' hi' hji
    rw [hie, hje] at this
    omega
  · have : i = j := le_antisymm hji hij
    subst this
    rw [hie] at hje
    subst hje
    exact absurd hlt (lt_irrefl _)

/-- C4: in the standard-game speech queue, at most one utterance plays at
a time: utterance k+1's TTS request is issued only after utterance k's
playback-end event has fired, and for any two utterances the earlier one's
playback ends before the later one's playback starts. -/
theorem speech_queue_sequential (os : List TtsOutcome) :
    (∀ i j k : Nat, (queueTrace 0 os)[i]? = some (SpeechEvent.playEnd k) →
      (queueTrace 0 os)[j]? = some (SpeechEvent.ttsRequest (k + 1)) → i < j) ∧
    (∀ i j k l : Nat, k < l →
      (queueTrace 0 os)[i]? = some (SpeechEvent.playEnd k) →
      (queueTrace 0 os)[j]? = some (SpeechEvent.playStart l) → i < j) := by
  constructor
  · intro i j k hi hj
    exact queueTrace_pos_lt os i j _ _ hi hj (by simp only [uttOf]; omega)
  · intro i j k l hkl hi hj
    exact queueTrace_pos_lt os i j _ _ hi hj (by simp only [uttOf]; omega)

/-- Witness for C4 on a queue of two successful utterances. -/
theorem speech_queue_sequential_witness :
    (queueTrace 0 [.success, .success])[3]? = some (SpeechEvent.playEnd 0) ∧
    (queueTrace 0 [.success, .success])[4]? = some (SpeechEvent.ttsRequest 1) ∧
    3 < 4 := by
  refine ⟨by decide, by decide, ?_⟩
  exact (speech_queue_sequential [.success, .success]).1 3 4 0
    (by decide) (by decide)

/-- Every enqueued utterance's TTS request appears in the queue trace,
whatever the outcomes of the utterances before it. -/
theorem ttsRequest_mem_queueTrace (os : List TtsOutcome) (b k : Nat)
    (h : k < os.length) :
    SpeechEvent.ttsRequest (b + k) ∈ queueTrace b os := by
  induction os generalizing b k with
  | nil => simp at h
  | cons o os ih =>
    cases k with
    | zero =>
      rw [queueTrace]
      refine List.mem_append.mpr (Or.inl ?_)
      cases o <;> simp [utteranceTrace]
    | succ k' =>
      rw [queueTrace]
      refine List.mem_append.mpr (Or.inr ?_)
      have hm := ih (b + 1) k' (by simpa using h)
      have harith : b + 1 + k' = b + (k' + 1) := by omega
      rwa [harith] at hm

/-- C6: `playTextToSpeech` never rejects — on any TTS request, decode, or
playback failure it resolves — so an utterance enqueued after a failed one
still issues its request and the playback queue never stalls. -/
theorem tts_failures_resolve_silently :
    (∀ env : TtsEnv, playTextToSpeech env = .ok ()) ∧
    (∀ (os : List TtsOutcome) (k : Nat), k < os.length →
      SpeechEvent.ttsRequest k ∈ queueTrace 0 os) := by
  constructor
  · intro env
    obtain ⟨req, closed, dec⟩ := env
    cases req with
    | err => rfl
    | ok audio =>
      cases audio with
      | none => rfl
      | some a =>
        cases closed
        · cases dec <;> rfl
        · rfl
  · intro os k h
    simpa using ttsRequest_mem_queueTrace os 0 k h

/-- Witness for C6: the second utterance of a queue whose first utterance's
request failed still issues its request. -/
theorem tts_failures_resolve_silently_witness :
    playTextToSpeech ⟨.err, false, .err⟩ = .ok () ∧
    1 < 2 ∧ SpeechEvent.ttsRequest 1 ∈ queueTrace 0 [.requestError, .success] := by
  refine ⟨tts_failures_resolve_silently.1 ⟨.err, false, .err⟩, by decide, ?_⟩
  exact tts_failures_resolve_silently.2 [.requestError, .success] 1 (by decide)

/-- C7 counterexample: after the mic toggle is switched off, the React
state says the mic is muted, yet the very next captured frame is still
encoded and sent, because `onaudioprocess` tests the stale `isMicOn`
binding captured by the once-run effect on the first render. -/
theorem frame_sent_while_muted (frame : List ℚ) :
    (toggleMic initialMicState).isMicOn = false ∧
    onaudioprocess (toggleMic initialMicState) frame
      = some (createPcmBlob frame) :=
  ⟨rfl, rfl⟩

/-- All `cleanup`-modified fields for present refs: tracks stopped, nodes
disconnected, contexts closed, and — when the retained session promise has
resolved to a session carrying `close` — the session closed. -/
theorem cleanup_releases_resources (s : LiveRefs) (ts : List MediaTrack)
    (hs : s.streamTracks = some ts)
    (hproc : s.processorConnected = some true)
    (hsrc : s.sourceConnected = some true)
    (hin : s.inputCtxClosed = some false)
    (hout : s.outputCtxClosed = some false)
    (hsess : s.sessionPromise = some (.resolved true)) :
    (cleanup s).streamTracks = some (ts.map stopTrack) ∧
    (∀ t ∈ ts.map stopTrack, t.stopped = true) ∧
    (cleanup s).processorConnected = some false ∧
    (cleanup s).sourceConnected = some false ∧
    (cleanup s).inputCtxClosed = some true ∧
    (cleanup s).outputCtxClosed = some true ∧
    (cleanup s).sessionClosed = true := by
  refine ⟨by simp [cleanup, hs], ?_, by simp [cleanup, hproc],
    by simp [cleanup, hsrc], by simp [cleanup, hin], by simp [cleanup, hout],
    by simp [cleanup, hsess]⟩
  intro t ht
  rcases List.mem_map.mp ht with ⟨t', -, rfl⟩
  rfl

/-- Witness for C8 at a teardown with one live track, connected nodes,
open contexts, and a resolved session promise. -/
theorem cleanup_releases_resources_witness :
    (LiveRefs.mk (some [⟨false⟩]) (some true) (some true) (some false)
        (some false) (some (.resolved true)) false).streamTracks
      = some [⟨false⟩] ∧
    (cleanup (LiveRefs.mk (some [⟨false⟩]) (some true) (some true)
        (some false) (some false) (some (.resolved true)) false)).sessionClosed
      = true ∧
    (cleanup (LiveRefs.mk (some [⟨false⟩]) (some true) (some true)
        (some false) (some false) (some (.resolved true)) false)).streamTracks
      = some ([MediaTrack.mk false].map stopTrack) := by
  refine ⟨rfl, ?_, ?_⟩
  · exact (cleanup_releases_resources _ [⟨false⟩] rfl rfl rfl rfl rfl
      rfl).2.2.2.2.2.2
  · exact (cleanup_releases_resources _ [⟨false⟩] rfl rfl rfl rfl rfl rfl).1

/-- The question index stays below the question count under every
interaction. -/
theorem runStdOps_idx_lt (numQuestions : Nat) (ops : List StdOp)
    (s : StdState) (hs : s.currentQIdx < numQuestions) :
    (runStdOps numQuestions s ops).currentQIdx < numQuestions := by
  induction ops generalizing s with
  | nil => exact hs
  | cons op ops ih =>
    refine ih (applyStdOp numQuestions s op) ?_
    cases op with
    | reveal => exact hs
    | gotItRight =>
      simp only [applyStdOp, clickGotItRight, handleNext]
      split <;> simp <;> omega
    | missedIt =>
      simp only [applyStdOp, clickMissedIt, handleNext]
      split <;> simp <;> omega

/-- C9: for every non-empty questions list, the current question index
stays within [0, questions.length - 1] after every reveal/next/score
interaction, so the displayed position satisfies 1 ≤ i ≤ n and the
displayed question is an element of the list. -/
theorem std_index_in_range (qs : List TriviaQuestion) (hne : qs ≠ [])
    (ops : List StdOp) :
    (runStdOps qs.length initialStdState ops).currentQIdx < qs.length ∧
    1 ≤ (runStdOps qs.length initialStdState ops).currentQIdx + 1 ∧
    (runStdOps qs.length initialStdState ops).currentQIdx + 1 ≤ qs.length ∧
    ∃ q, qs[(runStdOps qs.length initialStdState ops).currentQIdx]? = some q ∧
      q ∈ qs := by
  have hpos : 0 < qs.length := List.length_pos.mpr hne
  have hlt : (runStdOps qs.length initialStdState ops).currentQIdx < qs.length :=
    runStdOps_idx_lt qs.length ops initialStdState hpos
  refine ⟨hlt, Nat.le_add_left 1 _, by omega, qs.get ⟨_, hlt⟩, ?_,
    List.get_mem qs _ hlt⟩
  simp [List.getElem?_eq_getElem hlt, List.get_eq_getElem]

/-- Witness for C9 on a one-question list with one revealed and scored
round. -/
theorem std_index_in_range_witness :
    ([⟨"q", "a", none⟩] : List TriviaQuestion) ≠ [] ∧
    (runStdOps 1 initialStdState [.reveal, .gotItRight]).currentQIdx < 1 ∧
    (runStdOps 1 initialStdState [.reveal, .gotItRight]).currentQIdx + 1 ≤ 1 := by
  have h := std_index_in_range [⟨"q", "a", none⟩] (by decide)
    [.reveal, .gotItRight]
  exact ⟨by decide, by simpa using h.1, by simpa using h.2.2.1⟩

/-- Running the remaining rounds from a state at question
`numQuestions - remaining` speaks, at the last round, the score
accumulated before that round's click. -/
theorem runGame_spoken (numQuestions : Nat) (ds : List Bool) (s : StdState)
    (hne : ds ≠ []) (hidx : s.currentQIdx + ds.length = numQuestions) :
    (runGame numQuestions ds s).2
      = some (s.score + ds.dropLast.count true) := by
  induction ds generalizing s with
  | nil => exact absurd rfl hne
  | cons d ds ih =>
    cases ds with
    | nil =>
      have hnolt : ¬ s.currentQIdx < numQuestions - 1 := by
        simp only [List.length_cons, List.length_nil] at hidx
        omega
      cases d <;>
        simp [runGame, playRound, clickGotItRight, clickMissedIt, handleNext,
          hnolt, handleReveal, Option.orElse]
    | cons d' ds' =>
      have hlt : s.currentQIdx < numQuestions - 1 := by
        simp only [List.length_cons] at hidx
        omega
      have hstep : (playRound numQuestions d s).1.currentQIdx
            = s.currentQIdx + 1 ∧
          (playRound numQuestions d s).1.score
            = s.score + (if d then 1 else 0) ∧
          (playRound numQuestions d s).2 = none := by
        cases d <;>
          simp [playRound, clickGotItRight, clickMissedIt, handleNext, hlt,
            handleReveal]
      have hrec := ih (playRound numQuestions d s).1 (by simp)
        (by rw [hstep.1]; simp only [List.length_cons] at hidx ⊢; omega)
      rw [runGame]
      rw [hrec, hstep.2.2]
      have hdl : (d :: d' :: ds').dropLast = d :: (d' :: ds').dropLast := rfl
      rw [hstep.2.1, hdl, List.count_cons]
      simp only [Option.orElse]
      cases d <;> simp
      omega

/-- C10: the game-over utterance spoken when advancing past the last
question announces the score held before the triggering click's increment:
in every game whose final question is marked correct, the spoken total is
the number of correct answers minus one. -/
theorem game_over_speaks_stale_score (numQuestions : Nat) (ds : List Bool)
    (hlen : ds.length = numQuestions) (hn : 1 ≤ numQuestions)
    (hlast : ds.getLast? = some true) :
    (runGame numQuestions ds initialStdState).2
      = some (ds.count true - 1) := by
  have hne : ds ≠ [] := by
    intro h
    rw [h] at hlen
    simp at hlen
    omega
  have hsp := runGame_spoken numQuestions ds initialStdState hne
    (by simp [initialStdState, hlen])
  have hgl : ds.getLast hne = true := by
    have := List.getLast?_eq_getLast ds hne
    rw [hlast] at this
    exact (Option.some_inj.mp this).symm
  have hsplit : ds.dropLast ++ [true] = ds := by
    rw [← hgl]
    exact List.dropLast_append_getLast hne
  have hcount : ds.count true = ds.dropLast.count true + 1 := by
    conv_lhs => rw [← hsplit]
    simp [List.count_append]
  rw [hsp]
  simp [initialStdState, hcount]

/-- Witness for C10 at a one-question game answered correctly. -/
theorem game_over_speaks_stale_score_witness :
    ([true] : List Bool).length = 1 ∧ 1 ≤ 1 ∧
    ([true] : List Bool).getLast? = some true ∧
    (runGame 1 [true] initialStdState).2 = some (([true] : List Bool).count true - 1) := by
  refine ⟨rfl, le_refl 1, rfl, ?_⟩
  exact game_over_speaks_stale_score 1 [true] rfl (le_refl 1) rfl

end TriviaGenius
